import Mathlib

/-!
Verification of the PHP API documentation generator `scripts/gen_api.py`.

The script is embedded shallowly: Python strings become `List Char`, the
regular-expression passes become executable backtracking matchers over
`List Char` that transliterate the patterns of the script, and the
filesystem-touching driver becomes explicit state passing over a `World`
record together with a fault oracle that models exceptions raised by
file operations.  Character classes `\s` and `\w` are modelled over the
ASCII range, which is the range exercised by the source inputs the
script is meant to process.
-/

namespace GenApi

/-- Convenience: the character list of a string literal. -/
def str (s : String) : List Char := s.data

/-- Model of Python `str.isspace` / the regex class `\s` (ASCII range). -/
def pyIsSpace (c : Char) : Bool :=
  c = ' ' || c = '\t' || c = '\n' || c = '\r' || c = '\x0b' || c = '\x0c'

/-- Model of the regex class `\w` (ASCII range): letters, digits, underscore. -/
def isWordChar (c : Char) : Bool :=
  c.isAlphanum || c = '_'

/-- Python `s.strip()`: remove leading and trailing whitespace. -/
def pyStrip (s : List Char) : List Char :=
  ((s.dropWhile pyIsSpace).reverse.dropWhile pyIsSpace).reverse

/-- Python `s.split(sep)` for a single-character separator. -/
def splitOnChar (s : List Char) (sep : Char) : List (List Char) :=
  match s with
  | [] => [[]]
  | c :: rest =>
    match splitOnChar rest sep with
    | [] => [[c]]
    | grp :: grps => if c = sep then [] :: grp :: grps else (c :: grp) :: grps

/-- Python `sep.join(parts)`. -/
def joinSep (sep : List Char) : List (List Char) → List Char
  | [] => []
  | [x] => x
  | x :: y :: rest => x ++ sep ++ joinSep sep (y :: rest)

/-- Python `s.startswith(pre)`. -/
def startsWithL (pre s : List Char) : Bool :=
  decide (s.take pre.length = pre)

/-- Python `s.endswith(suf)`. -/
def endsWithL (suf s : List Char) : Bool :=
  decide (s.drop (s.length - suf.length) = suf)

/-- Python slice `s[a:b]` (indices clamped to the string length). -/
def pySlice (s : List Char) (a b : Nat) : List Char :=
  (s.take b).drop a

/-- The pattern `pat` occurs in `s` at index `i` (the whole pattern fits). -/
def occursAt (s pat : List Char) (i : Nat) : Bool :=
  decide ((s.drop i).take pat.length = pat)

/-- Greatest index `i` with `i + pat.length ≤ bound` at which `pat` occurs in
`s`; this is Python `s.rfind(pat, 0, bound)` (with `none` for `-1`).  The
recursion steps the candidate index down from the bound. -/
def lastOcc (s pat : List Char) : Nat → Option Nat
  | 0 => none
  | b + 1 =>
    if pat.length ≤ b + 1 && occursAt s pat (b + 1 - pat.length) then
      some (b + 1 - pat.length)
    else lastOcc s pat b

/-- Fuel-driven upward scan used by `firstOccFrom`; the fuel is an upper bound
on the number of candidate indices left to inspect. -/
def firstOccAux (s pat : List Char) : Nat → Nat → Option Nat
  | 0, _ => none
  | fuel + 1, a =>
    if s.length < a then none
    else if occursAt s pat a then some a
    else firstOccAux s pat fuel (a + 1)

/-- Least index `i ≥ a` at which `pat` occurs in `s`; this is Python
`s.find(pat, a)` (with `none` for `-1`). -/
def firstOccFrom (s pat : List Char) (a : Nat) : Option Nat :=
  firstOccAux s pat (s.length + 1 - a) a

/-- Python `pat in s` (substring containment). -/
def containsSub (s pat : List Char) : Bool :=
  (firstOccFrom s pat 0).isSome

/-- `_extract_phpdoc_before`: look backwards from `position` for the last
occurrence of the opener, then forwards from it for the first closer, and
return the block verbatim; empty string when either search fails. -/
def extractPhpdocBefore (content : List Char) (position : Nat) : List Char :=
  match lastOcc content (str "/**") position with
  | none => []
  | some start =>
    match firstOccFrom content (str "*/") start with
    | none => []
    | some e => pySlice content start (e + 2)

/-- `_format_phpdoc`: strip the comment delimiters, trim every line, drop
lines that are empty or begin with an asterisk, and rejoin with newlines. -/
def formatPhpdoc (phpdoc : List Char) : List Char :=
  if phpdoc = [] then []
  else
    let content := pyStrip phpdoc
    let content := if startsWithL (str "/**") content then content.drop 3 else content
    let content := if endsWithL (str "*/") content then content.take (content.length - 2) else content
    let lines := (splitOnChar content '\n').map pyStrip
    let lines := lines.filter (fun line => !line.isEmpty && !startsWithL (str "*") line)
    joinSep (str "\n") lines

/-- The normalization pipeline in the words of the specification: remove the
opening and closing delimiters, split into lines, trim each line, discard
lines that are empty after trimming or that begin with an asterisk, and
rejoin the survivors with newlines. -/
def specNormalizeDoc (s : List Char) : List Char :=
  let body := (s.drop 3).take (s.length - 5)
  let lines := (splitOnChar body '\n').map pyStrip
  joinSep (str "\n") (lines.filter (fun line => !line.isEmpty && !startsWithL (str "*") line))

/-!
A small backtracking matching engine.  A matcher sends the remaining input
to the list of possible (captures, rest-of-input) outcomes in the priority
order of Python's `re` backtracking: alternatives left to right, quantifiers
greedy (longest first), optional groups present first.  The head of the
list of outcomes of a whole pattern is the match `re` reports.  Every
quantifier of the patterns of `gen_api.py` ranges over a single-character
class, so the engine only needs star and plus over character predicates.
-/

/-- A backtracking matcher producing outcomes in priority order. -/
def M (α : Type) : Type := List Char → List (α × List Char)

instance : Monad M where
  pure a := fun s => [(a, s)]
  bind m f := fun s => (m s).flatMap (fun pr => f pr.1 pr.2)

/-- Match a literal string. -/
def mLit : List Char → M Unit
  | [], s => [((), s)]
  | _ :: _, [] => []
  | c :: cs, x :: xs => if x = c then mLit cs xs else []

/-- Match one character of a class. -/
def mCls (p : Char → Bool) : M Char :=
  fun s =>
    match s with
    | [] => []
    | c :: cs => if p c then [(c, cs)] else []

/-- All ways a greedy star over a character class can split the input,
longest consumed run first. -/
def starAlts (p : Char → Bool) : List Char → List (List Char × List Char)
  | [] => [([], [])]
  | c :: cs =>
    if p c then (starAlts p cs).map (fun pr => (c :: pr.1, pr.2)) ++ [([], c :: cs)]
    else [([], c :: cs)]

/-- Greedy `X*` over a character class. -/
def mStar (p : Char → Bool) : M (List Char) :=
  fun s => starAlts p s

/-- Greedy `X+` over a character class. -/
def mPlus (p : Char → Bool) : M (List Char) := do
  let c ← mCls p
  let rest ← mStar p
  pure (c :: rest)

/-- Greedy `(?:...)?`: try the group first, then skip it. -/
def mOpt {α : Type} (m : M α) : M (Option α) :=
  fun s => ((m s).map fun pr => (some pr.1, pr.2)) ++ [(none, s)]

/-- Ordered alternation `a|b`. -/
def mAlt {α : Type} (m₁ m₂ : M α) : M α :=
  fun s => m₁ s ++ m₂ s

/-- Attempt a match of the whole pattern at the start of `s`: the captures
and the number of characters consumed, following the first outcome in
backtracking priority order (what Python's `re` reports). -/
def runAtom {α : Type} (m : M α) (s : List Char) : Option (α × Nat) :=
  match m s with
  | [] => none
  | pr :: _ => some (pr.1, s.length - pr.2.length)

/-- Fuel-driven scan implementing `re.finditer`: try each start index left to
right, and continue after the end of every non-overlapping match.  The fuel
bounds the number of start indices still to try. -/
def reScanAux {α : Type} (m : M α) (s : List Char) : Nat → Nat → List (α × Nat × Nat)
  | 0, _ => []
  | fuel + 1, i =>
    if s.length < i then []
    else
      match runAtom m (s.drop i) with
      | some (a, consumed) =>
        (a, i, i + consumed) :: reScanAux m s fuel (max (i + consumed) (i + 1))
      | none => reScanAux m s fuel (i + 1)

/-- `re.finditer(pattern, s)` as the list of (captures, start, end). -/
def reFindAll {α : Type} (m : M α) (s : List Char) : List (α × Nat × Nat) :=
  reScanAux m s (s.length + 1) 0

/-- The opening-brace character, written by code point. -/
def lbrace : Char := '\x7b'

/-- `class\s+(\w+)(?:\s+extends\s+(\w+))?(?:\s+implements\s+([^\x7b]+))?\s*\x7b`
(the `class_pattern` of `_parse_content`). -/
def classAtom : M (List Char × Option (List Char) × Option (List Char)) := do
  mLit (str "class")
  _ ← mPlus pyIsSpace
  let name ← mPlus isWordChar
  let ext ← mOpt (do
    _ ← mPlus pyIsSpace
    mLit (str "extends")
    _ ← mPlus pyIsSpace
    mPlus isWordChar)
  let impl ← mOpt (do
    _ ← mPlus pyIsSpace
    mLit (str "implements")
    _ ← mPlus pyIsSpace
    mPlus (fun c => !(c = lbrace)))
  _ ← mStar pyIsSpace
  mLit [lbrace]
  pure (name, ext, impl)

/-- `interface\s+(\w+)(?:\s+extends\s+([^\x7b]+))?\s*\x7b`
(the `interface_pattern` of `_parse_content`). -/
def interfaceAtom : M (List Char × Option (List Char)) := do
  mLit (str "interface")
  _ ← mPlus pyIsSpace
  let name ← mPlus isWordChar
  let ext ← mOpt (do
    _ ← mPlus pyIsSpace
    mLit (str "extends")
    _ ← mPlus pyIsSpace
    mPlus (fun c => !(c = lbrace)))
  _ ← mStar pyIsSpace
  mLit [lbrace]
  pure (name, ext)

/-- `enum\s+(\w+)(?:\s+:\s+(\w+))?\s*\x7b` (the `enum_pattern`). -/
def enumAtom : M (List Char × Option (List Char)) := do
  mLit (str "enum")
  _ ← mPlus pyIsSpace
  let name ← mPlus isWordChar
  let backing ← mOpt (do
    _ ← mPlus pyIsSpace
    mLit (str ":")
    _ ← mPlus pyIsSpace
    mPlus isWordChar)
  _ ← mStar pyIsSpace
  mLit [lbrace]
  pure (name, backing)

/-- The ordered alternation `public|private|protected`. -/
def visibilityAtom : M Unit :=
  mAlt (mLit (str "public")) (mAlt (mLit (str "private")) (mLit (str "protected")))

/-- `(?:public|private|protected)?\s*(?:static\s+)?function\s+(\w+)\s*\([^)]*\)\s*(?::\s*(\w+))?\s*\x7b`
(the `method_pattern` of `_extract_methods`). -/
def methodAtom : M (List Char × Option (List Char)) := do
  _ ← mOpt visibilityAtom
  _ ← mStar pyIsSpace
  _ ← mOpt (do
    mLit (str "static")
    _ ← mPlus pyIsSpace
    pure ())
  mLit (str "function")
  _ ← mPlus pyIsSpace
  let name ← mPlus isWordChar
  _ ← mStar pyIsSpace
  mLit (str "(")
  _ ← mStar (fun c => !(c = ')'))
  mLit (str ")")
  _ ← mStar pyIsSpace
  let ret ← mOpt (do
    mLit (str ":")
    _ ← mStar pyIsSpace
    mPlus isWordChar)
  _ ← mStar pyIsSpace
  mLit [lbrace]
  pure (name, ret)

/-- `(?:public|private|protected)?\s*(?:readonly\s+)?(?:\w+\s+)?\$(\w+)(?:\s*=\s*[^;]+)?;`
(the `property_pattern` of `_extract_properties`). -/
def propertyAtom : M (List Char) := do
  _ ← mOpt visibilityAtom
  _ ← mStar pyIsSpace
  _ ← mOpt (do
    mLit (str "readonly")
    _ ← mPlus pyIsSpace
    pure ())
  _ ← mOpt (do
    _ ← mPlus isWordChar
    _ ← mPlus pyIsSpace
    pure ())
  mLit (str "$")
  let name ← mPlus isWordChar
  _ ← mOpt (do
    _ ← mStar pyIsSpace
    mLit (str "=")
    _ ← mStar pyIsSpace
    _ ← mPlus (fun c => !(c = ';'))
    pure ())
  mLit (str ";")
  pure name

/-- `case\s+(\w+)(?:\s*=\s*[^,;]+)?[,;]` (the `case_pattern`). -/
def caseAtom : M (List Char) := do
  mLit (str "case")
  _ ← mPlus pyIsSpace
  let name ← mPlus isWordChar
  _ ← mOpt (do
    _ ← mStar pyIsSpace
    mLit (str "=")
    _ ← mStar pyIsSpace
    _ ← mPlus (fun c => !(c = ',') && !(c = ';'))
    pure ())
  _ ← mCls (fun c => c = ',' || c = ';')
  pure name

/-- A method entry of the extraction result. -/
structure MethodInfo where
  name : List Char
  returnType : Option (List Char)
  docstring : List Char
deriving DecidableEq, Repr

/-- A property entry of the extraction result. -/
structure PropertyInfo where
  name : List Char
  docstring : List Char
deriving DecidableEq, Repr

/-- An enum-case entry of the extraction result. -/
structure CaseInfo where
  name : List Char
  docstring : List Char
deriving DecidableEq, Repr

/-- A class entry of the extraction result (`extendsName` renders the
source's `extends` key, which is not a legal field name in Lean). -/
structure ClassInfo where
  name : List Char
  extendsName : Option (List Char)
  implements : List (List Char)
  docstring : List Char
  methods : List MethodInfo
  properties : List PropertyInfo
deriving DecidableEq, Repr

/-- An interface entry of the extraction result. -/
structure InterfaceInfo where
  name : List Char
  extendsList : List (List Char)
  docstring : List Char
  methods : List MethodInfo
deriving DecidableEq, Repr

/-- An enum entry of the extraction result. -/
structure EnumInfo where
  name : List Char
  backingType : Option (List Char)
  docstring : List Char
  cases : List CaseInfo
deriving DecidableEq, Repr

/-- The result shape of `_parse_content`.  The source never constructs an
entry for `functions` or `constants`, so their element type is immaterial. -/
structure ParseResult where
  classes : List ClassInfo
  interfaces : List InterfaceInfo
  enums : List EnumInfo
  functions : List Unit
  constants : List Unit
deriving DecidableEq, Repr

/-- `_extract_methods(content, class_start, class_end)`: run the method
pattern over `content[class_start:class_end]` and look up each doc-comment
at `class_start + match.start()` in the full content. -/
def extractMethods (content : List Char) (classStart classEnd : Nat) : List MethodInfo :=
  (reFindAll methodAtom (pySlice content classStart classEnd)).map fun x =>
    { name := x.1.1
      returnType := x.1.2
      docstring := extractPhpdocBefore content (classStart + x.2.1) }

/-- `_extract_properties(content, class_start, class_end)`. -/
def extractProperties (content : List Char) (classStart classEnd : Nat) : List PropertyInfo :=
  (reFindAll propertyAtom (pySlice content classStart classEnd)).map fun x =>
    { name := x.1
      docstring := extractPhpdocBefore content (classStart + x.2.1) }

/-- `_extract_enum_cases(content, enum_start, enum_end)`. -/
def extractEnumCases (content : List Char) (enumStart enumEnd : Nat) : List CaseInfo :=
  (reFindAll caseAtom (pySlice content enumStart enumEnd)).map fun x =>
    { name := x.1
      docstring := extractPhpdocBefore content (enumStart + x.2.1) }

/-- `_parse_content`: one pass per declaration kind over the whole content.
Member extraction is invoked with `match.start()` and `match.end()` of the
declaration-header match, exactly as in the source. -/
def parseContent (content : List Char) : ParseResult :=
  { classes := (reFindAll classAtom content).map fun x =>
      { name := x.1.1
        extendsName := x.1.2.1
        implements :=
          match x.1.2.2 with
          | none => []
          | some grp => (splitOnChar grp ',').map pyStrip
        docstring := extractPhpdocBefore content x.2.1
        methods := extractMethods content x.2.1 x.2.2
        properties := extractProperties content x.2.1 x.2.2 }
    interfaces := (reFindAll interfaceAtom content).map fun x =>
      { name := x.1.1
        extendsList :=
          match x.1.2 with
          | none => []
          | some grp => (splitOnChar grp ',').map pyStrip
        docstring := extractPhpdocBefore content x.2.1
        methods := extractMethods content x.2.1 x.2.2 }
    enums := (reFindAll enumAtom content).map fun x =>
      { name := x.1.1
        backingType := x.1.2
        docstring := extractPhpdocBefore content x.2.1
        cases := extractEnumCases content x.2.1 x.2.2 }
    functions := []
    constants := [] }

/-- The markdown block built for one method inside `_generate_class_doc`
and `_generate_interface_doc`. -/
def renderMethodBlock (m : MethodInfo) : List Char :=
  str "### " ++ m.name ++ str "()\n\n"
    ++ (if m.docstring.isEmpty then [] else formatPhpdoc m.docstring ++ str "\n\n")
    ++ (match m.returnType with
        | some t => str "**Returns:** `" ++ t ++ str "`\n\n"
        | none => [])

/-- The markdown block built for one property inside `_generate_class_doc`. -/
def renderPropertyBlock (p : PropertyInfo) : List Char :=
  str "### $" ++ p.name ++ str "\n\n"
    ++ (if p.docstring.isEmpty then [] else formatPhpdoc p.docstring ++ str "\n\n")

/-- The markdown block built for one enum case inside `_generate_enum_doc`. -/
def renderCaseBlock (c : CaseInfo) : List Char :=
  str "### " ++ c.name ++ str "\n\n"
    ++ (if c.docstring.isEmpty then [] else formatPhpdoc c.docstring ++ str "\n\n")

/-- The markdown document `_generate_class_doc` writes for one class. -/
def renderClassDoc (c : ClassInfo) : List Char :=
  str "# " ++ c.name ++ str "\n\n"
    ++ (if c.docstring.isEmpty then [] else formatPhpdoc c.docstring ++ str "\n\n")
    ++ (match c.extendsName with
        | some e => str "**Extends:** `" ++ e ++ str "`\n\n"
        | none => [])
    ++ (if c.implements.isEmpty then []
        else str "**Implements:** "
          ++ joinSep (str ", ") (c.implements.map (fun i => str "`" ++ i ++ str "`"))
          ++ str "\n\n")
    ++ (if c.methods.isEmpty then []
        else str "## Methods\n\n" ++ (c.methods.map renderMethodBlock).flatten)
    ++ (if c.properties.isEmpty then []
        else str "## Properties\n\n" ++ (c.properties.map renderPropertyBlock).flatten)

/-- The markdown document `_generate_interface_doc` writes for one interface. -/
def renderInterfaceDoc (i : InterfaceInfo) : List Char :=
  str "# " ++ i.name ++ str " Interface\n\n"
    ++ (if i.docstring.isEmpty then [] else formatPhpdoc i.docstring ++ str "\n\n")
    ++ (if i.extendsList.isEmpty then []
        else str "**Extends:** "
          ++ joinSep (str ", ") (i.extendsList.map (fun e => str "`" ++ e ++ str "`"))
          ++ str "\n\n")
    ++ (if i.methods.isEmpty then []
        else str "## Methods\n\n" ++ (i.methods.map renderMethodBlock).flatten)

/-- The markdown document `_generate_enum_doc` writes for one enum. -/
def renderEnumDoc (e : EnumInfo) : List Char :=
  str "# " ++ e.name ++ str " Enum\n\n"
    ++ (if e.docstring.isEmpty then [] else formatPhpdoc e.docstring ++ str "\n\n")
    ++ (match e.backingType with
        | some t => str "**Backing Type:** `" ++ t ++ str "`\n\n"
        | none => [])
    ++ (if e.cases.isEmpty then []
        else str "## Cases\n\n" ++ (e.cases.map renderCaseBlock).flatten)

/-!
The driver.  Console output, file reads and file writes are recorded in a
`World`; file contents and exceptions are supplied by an `Env`.  The fault
oracle of the environment decides, per fallible filesystem operation (in
the order the operations are attempted), whether the operation raises an
exception and with which message — this models `open`/`read`/`write`
failures as well as any other error escaping the per-file work.  Directory
creation (`mkdir(parents=True, exist_ok=True)`) has no observable effect
in the model and is treated as always succeeding.
-/

/-- The observable state of one run: console log, paths opened for
reading, file-write events in order, and the count of fallible
filesystem operations attempted so far. -/
structure World where
  log : List (List Char)
  reads : List (List Char)
  writes : List (List Char × List Char)
  opCount : Nat
deriving DecidableEq, Repr

/-- The world at interpreter start-up. -/
def emptyWorld : World := { log := [], reads := [], writes := [], opCount := 0 }

/-- The run environment: the PHP files found by `rglob` (as paths relative
to the source root), their contents (keyed by full path), and the fault
oracle for fallible filesystem operations. -/
structure Env where
  phpFiles : List (List Char)
  fileContents : List Char → Option (List Char)
  faults : Nat → Option (List Char)

/-- State-and-exception computations over `World`; side effects performed
before an exception persist, as in Python. -/
def FsM (α : Type) : Type := World → Except (List Char) α × World

/-- Return a value, leaving the world unchanged. -/
def fsPure {α : Type} (a : α) : FsM α := fun w => (.ok a, w)

/-- Sequence two computations; an exception in the first skips the second. -/
def fsBind {α β : Type} (m : FsM α) (f : α → FsM β) : FsM β :=
  fun w =>
    match m w with
    | (.ok a, w') => f a w'
    | (.error e, w') => (.error e, w')

/-- Python `try`/`except Exception`: run the handler on the state at the
point of the exception. -/
def tryCatchFs {α : Type} (m : FsM α) (h : List Char → FsM α) : FsM α :=
  fun w =>
    match m w with
    | (.ok a, w') => (.ok a, w')
    | (.error e, w') => h e w'

/-- `print(line)`. -/
def printLine (line : List Char) : FsM Unit :=
  fun w => (.ok (), { w with log := w.log ++ [line] })

/-- Opening a file for reading: a fallible operation.  The attempt is
recorded; the fault oracle may raise, and a missing file raises. -/
def readFileOp (env : Env) (path : List Char) : FsM (List Char) :=
  fun w =>
    let w' := { w with opCount := w.opCount + 1, reads := w.reads ++ [path] }
    match env.faults w.opCount with
    | some msg => (.error msg, w')
    | none =>
      match env.fileContents path with
      | some content => (.ok content, w')
      | none => (.error (str "No such file or directory"), w')

/-- Opening a file for writing and writing it: a fallible operation. -/
def writeFileOp (env : Env) (path content : List Char) : FsM Unit :=
  fun w =>
    let w' := { w with opCount := w.opCount + 1 }
    match env.faults w.opCount with
    | some msg => (.error msg, w')
    | none => (.ok (), { w' with writes := w'.writes ++ [(path, content)] })

/-- `mkdir(parents=True, exist_ok=True)`: no observable effect. -/
def mkdirOp : FsM Unit := fsPure ()

/-- The full path of a PHP file: source root joined with the relative path
(`Path.rglob` yields paths under the root). -/
def fullPath (src rel : List Char) : List Char := src ++ str "/" ++ rel

/-- The output path: documentation root joined with the relative path with
its `.php` suffix replaced by `.md` (`with_suffix('.md')` for the files
`rglob("*.php")` enumerates). -/
def docPathFor (docs rel : List Char) : List Char :=
  docs ++ str "/" ++ (rel.take (rel.length - 4) ++ str ".md")

/-- `_should_skip_file`: skip when the path contains any configured
substring. -/
def shouldSkipFile (path : List Char) : Bool :=
  [str "/tests/", str "/vendor/", str "/Test.php", str "/test.php"].any
    (fun pat => containsSub path pat)

/-- `_generate_class_doc`: create the parent directory, then write the
rendered document to the mirrored output path. -/
def generateClassDoc (env : Env) (docs rel : List Char) (c : ClassInfo) : FsM Unit :=
  fsBind mkdirOp (fun _ => writeFileOp env (docPathFor docs rel) (renderClassDoc c))

/-- `_generate_interface_doc`. -/
def generateInterfaceDoc (env : Env) (docs rel : List Char) (i : InterfaceInfo) : FsM Unit :=
  fsBind mkdirOp (fun _ => writeFileOp env (docPathFor docs rel) (renderInterfaceDoc i))

/-- `_generate_enum_doc`. -/
def generateEnumDoc (env : Env) (docs rel : List Char) (e : EnumInfo) : FsM Unit :=
  fsBind mkdirOp (fun _ => writeFileOp env (docPathFor docs rel) (renderEnumDoc e))

/-- One of the `for ... in parsed[...]` loops of `_process_php_file`. -/
def processDocs {α : Type} (gen : α → FsM Unit) : List α → FsM Unit
  | [] => fsPure ()
  | x :: xs => fsBind (gen x) (fun _ => processDocs gen xs)

/-- The body of the `try` block of `_process_php_file`: read and parse the
file, then render and write every class, then interface, then enum. -/
def processPhpFileBody (env : Env) (src docs rel : List Char) : FsM Unit :=
  fsBind (readFileOp env (fullPath src rel)) (fun content =>
    let parsed := parseContent content
    fsBind (processDocs (generateClassDoc env docs rel) parsed.classes) (fun _ =>
      fsBind (processDocs (generateInterfaceDoc env docs rel) parsed.interfaces) (fun _ =>
        processDocs (generateEnumDoc env docs rel) parsed.enums)))

/-- The error line printed by the `except` clause of `_process_php_file`. -/
def errorLine (src rel e : List Char) : List Char :=
  str "Error processing " ++ fullPath src rel ++ str ": " ++ e

/-- `_process_php_file`: the per-file work, with every exception caught at
this boundary and logged. -/
def processPhpFile (env : Env) (src docs rel : List Char) : FsM Unit :=
  tryCatchFs (processPhpFileBody env src docs rel)
    (fun e => printLine (errorLine src rel e))

/-- The `for php_file in php_files` loop of `generate_documentation`:
skip excluded paths, otherwise print the progress line and process. -/
def processAllFiles (env : Env) (src docs : List Char) : List (List Char) → FsM Unit
  | [] => fsPure ()
  | rel :: rest =>
    if shouldSkipFile (fullPath src rel) then processAllFiles env src docs rest
    else
      fsBind (printLine (str "Processing " ++ rel)) (fun _ =>
        fsBind (processPhpFile env src docs rel) (fun _ =>
          processAllFiles env src docs rest))

/-- `generate_documentation`. -/
def generateDocumentation (env : Env) (src docs : List Char) : FsM Unit :=
  fsBind (printLine (str "Generating API documentation from " ++ src ++ str " to " ++ docs))
    (fun _ => fsBind mkdirOp (fun _ => processAllFiles env src docs env.phpFiles))

/-- The usage line `main` prints on a wrong argument count. -/
def usageLine : List Char := str "Usage: python gen_api.py <src_path> <docs_path>"

/-- `main`, with `argv` the full `sys.argv` (program name included): on any
argument count other than three, print the usage line and exit with code 1;
otherwise run the generator and exit 0 on completion, or with code 1 should
an exception escape (Python aborts with a traceback and a nonzero code). -/
def mainRun (env : Env) (argv : List (List Char)) : Nat × World :=
  match argv with
  | [_, src, docs] =>
    let r := fsBind (generateDocumentation env src docs)
      (fun _ => printLine (str "API documentation generation complete!")) emptyWorld
    ((match r.1 with
      | .ok _ => 0
      | .error _ => 1), r.2)
  | _ => (1, (printLine usageLine emptyWorld).2)

/-- The content found at path `p` after a sequence of write events: the
last write to `p`. -/
def lastContentAt (writes : List (List Char × List Char)) (p : List Char) : Option (List Char) :=
  ((writes.filter (fun pc => pc.1 = p)).map (fun pc => pc.2)).getLast?

/-- All documents `_process_php_file` renders for one parsed file, in the
order they are written: classes, then interfaces, then enums. -/
def fileRenders (parsed : ParseResult) : List (List Char) :=
  parsed.classes.map renderClassDoc
    ++ parsed.interfaces.map renderInterfaceDoc
    ++ parsed.enums.map renderEnumDoc

/-!
The member-extraction span in the words of the specification.  The spec
sentence behind claim C1 states that nested members are collected by
re-running the member patterns within the textual span from the
declaration's opening brace to the next occurrence of the same top-level
keyword or, failing that, the end of the file.  The definitions below
follow those words (not the source) so the source behaviour can be
compared against them.
-/

/-- The end of the member span in the specification's words: the next
occurrence of the declaration keyword after the declaration-header match,
or the end of the file.  `declEnd` is the header match's end (just past
the opening brace). -/
def claimedSpanEnd (content kw : List Char) (declEnd : Nat) : Nat :=
  match firstOccFrom content kw declEnd with
  | some j => j
  | none => content.length

/-- Per class match, the methods the specification's span rule would
collect: the method pattern re-run from the opening brace (the last
character of the header match) to `claimedSpanEnd`. -/
def claimedClassMethods (content : List Char) : List (List MethodInfo) :=
  (reFindAll classAtom content).map fun x =>
    extractMethods content (x.2.2 - 1) (claimedSpanEnd content (str "class") x.2.2)

/-- Per enum match, the cases the specification's span rule would collect. -/
def claimedEnumCases (content : List Char) : List (List CaseInfo) :=
  (reFindAll enumAtom content).map fun x =>
    extractEnumCases content (x.2.2 - 1) (claimedSpanEnd content (str "enum") x.2.2)

/-- A PHP file with one documented class containing one public method. -/
def phpClassSample : List Char :=
  str "/** Doc */\nclass Foo \x7b\n    public function bar(): int \x7b\n        return 1;\n    \x7d\n\x7d\n"

/-- A PHP file with one documented backed enum containing two cases with
assigned values. -/
def phpEnumSample : List Char :=
  str "/** S */\nenum Status : string \x7b\n    case Active = 1;\n    case Inactive = 2;\n\x7d\n"

/-- A PHP file declaring both a class and an enum. -/
def multiDeclSample : List Char :=
  str "class Alpha \x7b\n\x7d\n\nenum Beta \x7b\n\x7d\n"

/-- A fault-free environment holding `multiDeclSample` at
`src/App/Pair.php`. -/
def envPair : Env :=
  { phpFiles := [str "App/Pair.php"]
    fileContents := fun p =>
      if p = fullPath (str "src") (str "App/Pair.php") then some multiDeclSample else none
    faults := fun _ => none }

/-- An environment whose first fallible filesystem operation raises. -/
def envFaulty : Env :=
  { phpFiles := [str "App/Pair.php"]
    fileContents := fun _ => none
    faults := fun n => if n = 0 then some (str "boom") else none }

/-- An environment with one excluded and one retained file. -/
def envSkip : Env :=
  { phpFiles := [str "tests/FooTest.php", str "App/Pair.php"]
    fileContents := fun p =>
      if p = fullPath (str "src") (str "App/Pair.php") then some multiDeclSample else none
    faults := fun _ => none }

/-!
Theorems.  First, characterizations of the substring searches.
-/

theorem occursAt_le_length {s pat : List Char} {i : Nat} (hp : pat ≠ [])
    (h : occursAt s pat i = true) : i + pat.length ≤ s.length := by
  have h' : (s.drop i).take pat.length = pat := by simpa [occursAt] using h
  have hlen := congrArg List.length h'
  simp [List.length_take, List.length_drop] at hlen
  have hpos : 0 < pat.length := List.length_pos.mpr hp
  omega

theorem occursAt_false_beyond {s pat : List Char} {i : Nat} (hp : pat ≠ [])
    (h : s.length < i + pat.length) : occursAt s pat i = false := by
  cases hval : occursAt s pat i with
  | false => rfl
  | true => exact absurd (occursAt_le_length hp hval) (by omega)

theorem lastOcc_some {s pat : List Char} :
    ∀ {b i : Nat}, lastOcc s pat b = some i →
      occursAt s pat i = true ∧ i + pat.length ≤ b := by
  intro b
  induction b with
  | zero => intro i h; simp [lastOcc] at h
  | succ b ih =>
    intro i h
    rw [lastOcc] at h
    by_cases hc : (pat.length ≤ b + 1 && occursAt s pat (b + 1 - pat.length)) = true
    · rw [if_pos hc] at h
      have hc' := hc
      simp only [Bool.and_eq_true, decide_eq_true_eq] at hc'
      cases h
      exact ⟨hc'.2, by omega⟩
    · rw [if_neg hc] at h
      have := ih h
      exact ⟨this.1, by omega⟩

theorem lastOcc_maximal {s pat : List Char} :
    ∀ {b i : Nat}, lastOcc s pat b = some i →
      ∀ j, occursAt s pat j = true → j + pat.length ≤ b → j ≤ i := by
  intro b
  induction b with
  | zero => intro i h; simp [lastOcc] at h
  | succ b ih =>
    intro i h j hj hjb
    rw [lastOcc] at h
    by_cases hc : (pat.length ≤ b + 1 && occursAt s pat (b + 1 - pat.length)) = true
    · rw [if_pos hc] at h
      cases h
      omega
    · rw [if_neg hc] at h
      rcases Nat.lt_or_ge (j + pat.length) (b + 1) with hlt | hge
      · exact ih h j hj (by omega)
      · exfalso
        have hj' : j = b + 1 - pat.length := by omega
        have hle : pat.length ≤ b + 1 := by omega
        apply hc
        simp only [Bool.and_eq_true, decide_eq_true_eq]
        exact ⟨hle, hj' ▸ hj⟩

theorem lastOcc_none {s pat : List Char} (hp : pat ≠ []) :
    ∀ {b : Nat}, lastOcc s pat b = none →
      ∀ j, j + pat.length ≤ b → occursAt s pat j = false := by
  have hpos : 0 < pat.length := List.length_pos.mpr hp
  intro b
  induction b with
  | zero => intro _ j hj; omega
  | succ b ih =>
    intro h j hj
    rw [lastOcc] at h
    by_cases hc : (pat.length ≤ b + 1 && occursAt s pat (b + 1 - pat.length)) = true
    · rw [if_pos hc] at h; cases h
    · rw [if_neg hc] at h
      rcases Nat.lt_or_ge (j + pat.length) (b + 1) with hlt | hge
      · exact ih h j (by omega)
      · have hj' : j = b + 1 - pat.length := by omega
        cases hval : occursAt s pat j with
        | false => rfl
        | true =>
          exfalso
          apply hc
          simp only [Bool.and_eq_true, decide_eq_true_eq]
          exact ⟨by omega, hj' ▸ hval⟩

theorem firstOccAux_some {s pat : List Char} :
    ∀ {fuel a i : Nat}, firstOccAux s pat fuel a = some i →
      occursAt s pat i = true ∧ a ≤ i := by
  intro fuel
  induction fuel with
  | zero => intro a i h; simp [firstOccAux] at h
  | succ fuel ih =>
    intro a i h
    rw [firstOccAux] at h
    by_cases hlen : s.length < a
    · rw [if_pos hlen] at h; cases h
    · rw [if_neg hlen] at h
      by_cases hocc : occursAt s pat a = true
      · rw [if_pos hocc] at h
        cases h
        exact ⟨hocc, le_refl _⟩
      · rw [if_neg hocc] at h
        have := ih h
        exact ⟨this.1, by omega⟩

theorem firstOccAux_minimal {s pat : List Char} :
    ∀ {fuel a i : Nat}, firstOccAux s pat fuel a = some i →
      ∀ j, a ≤ j → j < i → occursAt s pat j = false := by
  intro fuel
  induction fuel with
  | zero => intro a i h; simp [firstOccAux] at h
  | succ fuel ih =>
    intro a i h j haj hji
    rw [firstOccAux] at h
    by_cases hlen : s.length < a
    · rw [if_pos hlen] at h; cases h
    · rw [if_neg hlen] at h
      by_cases hocc : occursAt s pat a = true
      · rw [if_pos hocc] at h
        cases h
        omega
      · rw [if_neg hocc] at h
        rcases Nat.eq_or_lt_of_le haj with rfl | hlt
        · simpa using hocc
        · exact ih h j (by omega) hji

theorem firstOccAux_none {s pat : List Char} (hp : pat ≠ []) :
    ∀ {fuel a : Nat}, s.length + 1 - a ≤ fuel → firstOccAux s pat fuel a = none →
      ∀ j, a ≤ j → occursAt s pat j = false := by
  have hpos : 0 < pat.length := List.length_pos.mpr hp
  intro fuel
  induction fuel with
  | zero =>
    intro a hfuel _ j haj
    exact occursAt_false_beyond hp (by omega)
  | succ fuel ih =>
    intro a hfuel h j haj
    rw [firstOccAux] at h
    by_cases hlen : s.length < a
    · exact occursAt_false_beyond hp (by omega)
    · rw [if_neg hlen] at h
      by_cases hocc : occursAt s pat a = true
      · rw [if_pos hocc] at h; cases h
      · rw [if_neg hocc] at h
        rcases Nat.eq_or_lt_of_le haj with rfl | hlt
        · simpa using hocc
        · exact ih (by omega) h j (by omega)

theorem firstOccFrom_some {s pat : List Char} {a i : Nat}
    (h : firstOccFrom s pat a = some i) : occursAt s pat i = true ∧ a ≤ i :=
  firstOccAux_some h

theorem firstOccFrom_none {s pat : List Char} (hp : pat ≠ []) {a : Nat}
    (h : firstOccFrom s pat a = none) :
    ∀ j, a ≤ j → occursAt s pat j = false :=
  firstOccAux_none hp (le_refl _) h

theorem pySlice_length (s : List Char) (a b : Nat) :
    (pySlice s a b).length = min b s.length - a := by
  simp [pySlice]

theorem extractPhpdocBefore_of_none {content : List Char} {p : Nat}
    (h : lastOcc content (str "/**") p = none) :
    extractPhpdocBefore content p = [] := by
  rw [extractPhpdocBefore, h]

theorem extractPhpdocBefore_of_some {content : List Char} {p s : Nat}
    (h : lastOcc content (str "/**") p = some s) :
    extractPhpdocBefore content p =
      match firstOccFrom content (str "*/") s with
      | none => []
      | some e => pySlice content s (e + 2) := by
  rw [extractPhpdocBefore, h]

/-- Shared step: the hypotheses of the doc-comment claims pin down the
result of the backward search. -/
theorem lastOcc_eq_of_maximal {content : List Char} {p s : Nat}
    (hocc : occursAt content (str "/**") s = true)
    (hfit : s + 3 ≤ p)
    (hmax : ∀ j, j < p → occursAt content (str "/**") j = true → j + 3 ≤ p → j ≤ s) :
    lastOcc content (str "/**") p = some s := by
  have hlen : (str "/**").length = 3 := rfl
  cases hcase : lastOcc content (str "/**") p with
  | none =>
    exfalso
    have := lastOcc_none (by decide) hcase s (by omega)
    rw [this] at hocc
    cases hocc
  | some i =>
    have h1 := lastOcc_some hcase
    have h2 := lastOcc_maximal hcase s hocc (by omega)
    have h3 := hmax i (by omega) h1.1 (by omega)
    have : i = s := by omega
    rw [this]

/-!
Effect lemmas for the driver.
-/

theorem readFileOp_no_fault {env : Env} (hf : env.faults = fun _ => none)
    {path content : List Char} (hc : env.fileContents path = some content) (w : World) :
    readFileOp env path w
      = (.ok content, { w with opCount := w.opCount + 1, reads := w.reads ++ [path] }) := by
  simp [readFileOp, hf, hc]

theorem writeFileOp_no_fault {env : Env} (hf : env.faults = fun _ => none)
    (p c : List Char) (w : World) :
    writeFileOp env p c w
      = (.ok (), { w with opCount := w.opCount + 1, writes := w.writes ++ [(p, c)] }) := by
  simp [writeFileOp, hf]

theorem generateClassDoc_no_fault {env : Env} (hf : env.faults = fun _ => none)
    (docs rel : List Char) (c : ClassInfo) (w : World) :
    generateClassDoc env docs rel c w
      = (.ok (), { w with
                   opCount := w.opCount + 1
                   writes := w.writes ++ [(docPathFor docs rel, renderClassDoc c)] }) := by
  simp [generateClassDoc, fsBind, mkdirOp, fsPure, writeFileOp_no_fault hf]

theorem generateInterfaceDoc_no_fault {env : Env} (hf : env.faults = fun _ => none)
    (docs rel : List Char) (i : InterfaceInfo) (w : World) :
    generateInterfaceDoc env docs rel i w
      = (.ok (), { w with
                   opCount := w.opCount + 1
                   writes := w.writes ++ [(docPathFor docs rel, renderInterfaceDoc i)] }) := by
  simp [generateInterfaceDoc, fsBind, mkdirOp, fsPure, writeFileOp_no_fault hf]

theorem generateEnumDoc_no_fault {env : Env} (hf : env.faults = fun _ => none)
    (docs rel : List Char) (e : EnumInfo) (w : World) :
    generateEnumDoc env docs rel e w
      = (.ok (), { w with
                   opCount := w.opCount + 1
                   writes := w.writes ++ [(docPathFor docs rel, renderEnumDoc e)] }) := by
  simp [generateEnumDoc, fsBind, mkdirOp, fsPure, writeFileOp_no_fault hf]

theorem processDocs_spec {α : Type} {gen : α → FsM Unit} {p : List Char} {rend : α → List Char}
    (hgen : ∀ x w, gen x w
      = (.ok (), { w with
                   opCount := w.opCount + 1
                   writes := w.writes ++ [(p, rend x)] })) :
    ∀ (l : List α) (w : World), processDocs gen l w
      = (.ok (), { w with
                   opCount := w.opCount + l.length
                   writes := w.writes ++ l.map (fun x => (p, rend x)) }) := by
  intro l
  induction l with
  | nil => intro w; simp [processDocs, fsPure]
  | cons x xs ih =>
    intro w
    simp only [processDocs, fsBind, hgen, ih, List.length_cons, List.map_cons]
    simp [List.append_assoc]
    omega

theorem processPhpFileBody_no_fault {env : Env} (hf : env.faults = fun _ => none)
    {src docs rel content : List Char}
    (hc : env.fileContents (fullPath src rel) = some content) (w : World) :
    processPhpFileBody env src docs rel w
      = (.ok (), { w with
                   opCount := w.opCount + 1 + (fileRenders (parseContent content)).length
                   reads := w.reads ++ [fullPath src rel]
                   writes := w.writes ++ (fileRenders (parseContent content)).map
                     (fun r => (docPathFor docs rel, r)) }) := by
  have hcls := processDocs_spec (fun c w => generateClassDoc_no_fault hf docs rel c w)
  have hint := processDocs_spec (fun i w => generateInterfaceDoc_no_fault hf docs rel i w)
  have henm := processDocs_spec (fun e w => generateEnumDoc_no_fault hf docs rel e w)
  cases w
  simp only [processPhpFileBody, fsBind, readFileOp_no_fault hf hc, hcls, hint, henm]
  simp [fileRenders, List.append_assoc]
  exact ⟨by simp [Function.comp_def], by omega⟩

theorem processPhpFile_no_fault {env : Env} (hf : env.faults = fun _ => none)
    {src docs rel content : List Char}
    (hc : env.fileContents (fullPath src rel) = some content) (w : World) :
    processPhpFile env src docs rel w
      = (.ok (), { w with
                   opCount := w.opCount + 1 + (fileRenders (parseContent content)).length
                   reads := w.reads ++ [fullPath src rel]
                   writes := w.writes ++ (fileRenders (parseContent content)).map
                     (fun r => (docPathFor docs rel, r)) }) := by
  rw [processPhpFile, tryCatchFs, processPhpFileBody_no_fault hf hc]

/-- C5: when one source file holds several declarations, `_process_php_file`
renders every declaration and writes each rendering sequentially to the one
output path derived from the file (documentation root joined with the
relative path, `.php` replaced by `.md`), in the order classes, then
interfaces, then enums; consequently the content found at that path after
the file is processed is the last-rendered declaration's document. -/
theorem claim_C5_overwrite (env : Env) (src docs rel content : List Char) (w : World)
    (hf : env.faults = fun _ => none)
    (hc : env.fileContents (fullPath src rel) = some content) :
    (processPhpFile env src docs rel w).2.writes
      = w.writes ++ (fileRenders (parseContent content)).map (fun r => (docPathFor docs rel, r))
    ∧ (fileRenders (parseContent content) ≠ [] →
        lastContentAt (processPhpFile env src docs rel w).2.writes (docPathFor docs rel)
          = (fileRenders (parseContent content)).getLast?) := by
  rw [processPhpFile_no_fault hf hc]
  refine ⟨rfl, fun hne => ?_⟩
  show lastContentAt
    (w.writes ++ (fileRenders (parseContent content)).map (fun r => (docPathFor docs rel, r)))
    (docPathFor docs rel) = (fileRenders (parseContent content)).getLast?
  rw [lastContentAt, List.filter_append, List.filter_map]
  have hfl : (fileRenders (parseContent content)).filter
      ((fun pc => decide (pc.1 = docPathFor docs rel)) ∘ (fun r => (docPathFor docs rel, r)))
      = fileRenders (parseContent content) := by
    simp
  rw [hfl, List.map_append, List.map_map]
  have hmm : ((fileRenders (parseContent content)).map
      ((fun pc => pc.2) ∘ (fun r => (docPathFor docs rel, r))))
      = fileRenders (parseContent content) := by
    simp
  rw [hmm]
  rw [List.getLast?_append_of_ne_nil _ hne]

/-- C5 witness: for a file declaring a class and an enum, the content left
at the single output path is the enum's (last-rendered) document. -/
theorem claim_C5_overwrite_witness :
    lastContentAt
        (processPhpFile envPair (str "src") (str "docs") (str "App/Pair.php") emptyWorld).2.writes
        (docPathFor (str "docs") (str "App/Pair.php"))
      = (fileRenders (parseContent multiDeclSample)).getLast?
    ∧ (fileRenders (parseContent multiDeclSample)).getLast?
      = some (renderEnumDoc { name := str "Beta", backingType := none, docstring := [], cases := [] }) := by
  constructor
  · exact (claim_C5_overwrite envPair (str "src") (str "docs") (str "App/Pair.php")
      multiDeclSample emptyWorld rfl (by decide)).2 (by decide)
  · decide

/-!
Invariants of the driver that hold under every fault oracle: the per-file
work writes only to the file's own output path, touches the read log only
with the file's own full path, and never lets an exception escape.
-/

theorem fsBind_writesOnly {α β : Type} {m : FsM α} {f : α → FsM β} {q : List Char}
    (hm : ∀ w, ∃ t, (m w).2.writes = w.writes ++ t ∧ ∀ pc ∈ t, pc.1 = q)
    (hf : ∀ a w, ∃ t, (f a w).2.writes = w.writes ++ t ∧ ∀ pc ∈ t, pc.1 = q) :
    ∀ w, ∃ t, (fsBind m f w).2.writes = w.writes ++ t ∧ ∀ pc ∈ t, pc.1 = q := by
  intro w
  obtain ⟨t₁, ht₁, ht₁q⟩ := hm w
  rcases hmw : m w with ⟨r, w₁⟩
  rw [hmw] at ht₁
  cases r with
  | error e =>
    exact ⟨t₁, by simp [fsBind, hmw]; exact ht₁, ht₁q⟩
  | ok a =>
    obtain ⟨t₂, ht₂, ht₂q⟩ := hf a w₁
    refine ⟨t₁ ++ t₂, ?_, ?_⟩
    · simp only [fsBind, hmw]
      rw [ht₂, ht₁, List.append_assoc]
    · intro pc hpc
      rcases List.mem_append.mp hpc with h | h
      · exact ht₁q pc h
      · exact ht₂q pc h

theorem fsPure_writesOnly {α : Type} (a : α) (q : List Char) :
    ∀ w, ∃ t, (fsPure a w).2.writes = w.writes ++ t ∧ ∀ pc ∈ t, pc.1 = q := by
  intro w
  exact ⟨[], by simp [fsPure], by simp⟩

theorem printLine_writesOnly (line q : List Char) :
    ∀ w, ∃ t, (printLine line w).2.writes = w.writes ++ t ∧ ∀ pc ∈ t, pc.1 = q := by
  intro w
  exact ⟨[], by simp [printLine], by simp⟩

theorem readFileOp_writesOnly (env : Env) (path q : List Char) :
    ∀ w, ∃ t, (readFileOp env path w).2.writes = w.writes ++ t ∧ ∀ pc ∈ t, pc.1 = q := by
  intro w
  refine ⟨[], ?_, by simp⟩
  rw [readFileOp]
  cases env.faults w.opCount with
  | some msg => simp
  | none =>
    cases env.fileContents path with
    | some c => simp
    | none => simp

theorem writeFileOp_writesOnly (env : Env) (p c : List Char) :
    ∀ w, ∃ t, (writeFileOp env p c w).2.writes = w.writes ++ t ∧ ∀ pc ∈ t, pc.1 = p := by
  intro w
  rw [writeFileOp]
  cases env.faults w.opCount with
  | some msg => exact ⟨[], by simp, by simp⟩
  | none => exact ⟨[(p, c)], by simp, by simp⟩

theorem generateClassDoc_writesOnly (env : Env) (docs rel : List Char) (c : ClassInfo) :
    ∀ w, ∃ t, (generateClassDoc env docs rel c w).2.writes = w.writes ++ t
      ∧ ∀ pc ∈ t, pc.1 = docPathFor docs rel :=
  fsBind_writesOnly (fsPure_writesOnly () _)
    (fun _ => writeFileOp_writesOnly env _ _)

theorem generateInterfaceDoc_writesOnly (env : Env) (docs rel : List Char) (i : InterfaceInfo) :
    ∀ w, ∃ t, (generateInterfaceDoc env docs rel i w).2.writes = w.writes ++ t
      ∧ ∀ pc ∈ t, pc.1 = docPathFor docs rel :=
  fsBind_writesOnly (fsPure_writesOnly () _)
    (fun _ => writeFileOp_writesOnly env _ _)

theorem generateEnumDoc_writesOnly (env : Env) (docs rel : List Char) (e : EnumInfo) :
    ∀ w, ∃ t, (generateEnumDoc env docs rel e w).2.writes = w.writes ++ t
      ∧ ∀ pc ∈ t, pc.1 = docPathFor docs rel :=
  fsBind_writesOnly (fsPure_writesOnly () _)
    (fun _ => writeFileOp_writesOnly env _ _)

theorem processDocs_writesOnly {α : Type} {gen : α → FsM Unit} {q : List Char}
    (hgen : ∀ x w, ∃ t, (gen x w).2.writes = w.writes ++ t ∧ ∀ pc ∈ t, pc.1 = q) :
    ∀ (l : List α) (w), ∃ t, (processDocs gen l w).2.writes = w.writes ++ t
      ∧ ∀ pc ∈ t, pc.1 = q := by
  intro l
  induction l with
  | nil => exact fsPure_writesOnly () q
  | cons x xs ih => exact fsBind_writesOnly (hgen x) (fun _ => ih)

theorem processPhpFileBody_writesOnly (env : Env) (src docs rel : List Char) :
    ∀ w, ∃ t, (processPhpFileBody env src docs rel w).2.writes = w.writes ++ t
      ∧ ∀ pc ∈ t, pc.1 = docPathFor docs rel :=
  fsBind_writesOnly (readFileOp_writesOnly env _ _)
    (fun _content =>
      fsBind_writesOnly (processDocs_writesOnly (generateClassDoc_writesOnly env docs rel) _)
        (fun _ =>
          fsBind_writesOnly
            (processDocs_writesOnly (generateInterfaceDoc_writesOnly env docs rel) _)
            (fun _ => processDocs_writesOnly (generateEnumDoc_writesOnly env docs rel) _)))

theorem processPhpFile_writesOnly (env : Env) (src docs rel : List Char) :
    ∀ w, ∃ t, (processPhpFile env src docs rel w).2.writes = w.writes ++ t
      ∧ ∀ pc ∈ t, pc.1 = docPathFor docs rel := by
  intro w
  obtain ⟨t, ht, htq⟩ := processPhpFileBody_writesOnly env src docs rel w
  rw [processPhpFile, tryCatchFs]
  rcases hb : processPhpFileBody env src docs rel w with ⟨r, w₁⟩
  rw [hb] at ht
  cases r with
  | ok a => exact ⟨t, ht, htq⟩
  | error e => exact ⟨t, by simp [printLine]; exact ht, htq⟩

theorem readFileOp_reads (env : Env) (path : List Char) (w : World) :
    (readFileOp env path w).2.reads = w.reads ++ [path] := by
  rw [readFileOp]
  cases env.faults w.opCount with
  | some msg => simp
  | none =>
    cases env.fileContents path with
    | some c => simp
    | none => simp

theorem writeFileOp_reads (env : Env) (p c : List Char) (w : World) :
    (writeFileOp env p c w).2.reads = w.reads := by
  rw [writeFileOp]
  cases env.faults w.opCount with
  | some msg => simp
  | none => simp

theorem fsBind_reads_const {α β : Type} {m : FsM α} {f : α → FsM β}
    (hm : ∀ w, (m w).2.reads = w.reads) (hf : ∀ a w, (f a w).2.reads = w.reads) :
    ∀ w, (fsBind m f w).2.reads = w.reads := by
  intro w
  have := hm w
  rcases hmw : m w with ⟨r, w₁⟩
  rw [hmw] at this
  cases r with
  | error e => simp [fsBind, hmw]; exact this
  | ok a =>
    simp only [fsBind, hmw]
    rw [hf a w₁, this]

theorem processDocs_reads_const {α : Type} {gen : α → FsM Unit}
    (hgen : ∀ x w, (gen x w).2.reads = w.reads) :
    ∀ (l : List α) (w), (processDocs gen l w).2.reads = w.reads := by
  intro l
  induction l with
  | nil => intro w; simp [processDocs, fsPure]
  | cons x xs ih => exact fsBind_reads_const (hgen x) (fun _ => ih)

theorem generateClassDoc_reads (env : Env) (docs rel : List Char) (c : ClassInfo) :
    ∀ w, (generateClassDoc env docs rel c w).2.reads = w.reads :=
  fsBind_reads_const (fun _ => rfl) (fun _ => writeFileOp_reads env _ _)

theorem generateInterfaceDoc_reads (env : Env) (docs rel : List Char) (i : InterfaceInfo) :
    ∀ w, (generateInterfaceDoc env docs rel i w).2.reads = w.reads :=
  fsBind_reads_const (fun _ => rfl) (fun _ => writeFileOp_reads env _ _)

theorem generateEnumDoc_reads (env : Env) (docs rel : List Char) (e : EnumInfo) :
    ∀ w, (generateEnumDoc env docs rel e w).2.reads = w.reads :=
  fsBind_reads_const (fun _ => rfl) (fun _ => writeFileOp_reads env _ _)

theorem fsBind_reads_append {α β : Type} {m : FsM α} {f : α → FsM β} {x : List (List Char)}
    (hm : ∀ w, (m w).2.reads = w.reads ++ x) (hf : ∀ a w, (f a w).2.reads = w.reads) :
    ∀ w, (fsBind m f w).2.reads = w.reads ++ x := by
  intro w
  have := hm w
  rcases hmw : m w with ⟨r, w₁⟩
  rw [hmw] at this
  cases r with
  | error e => simp [fsBind, hmw]; exact this
  | ok a =>
    simp only [fsBind, hmw]
    rw [hf a w₁, this]

theorem processPhpFileBody_reads (env : Env) (src docs rel : List Char) (w : World) :
    (processPhpFileBody env src docs rel w).2.reads = w.reads ++ [fullPath src rel] :=
  fsBind_reads_append (fun w => readFileOp_reads env (fullPath src rel) w)
    (fun _content =>
      fsBind_reads_const
        (processDocs_reads_const (generateClassDoc_reads env docs rel) _)
        (fun _ => fsBind_reads_const
          (processDocs_reads_const (generateInterfaceDoc_reads env docs rel) _)
          (fun _ => processDocs_reads_const (generateEnumDoc_reads env docs rel) _)))
    w

theorem processPhpFile_reads (env : Env) (src docs rel : List Char) (w : World) :
    (processPhpFile env src docs rel w).2.reads = w.reads ++ [fullPath src rel] := by
  have h1 := processPhpFileBody_reads env src docs rel w
  rw [processPhpFile, tryCatchFs]
  rcases hb : processPhpFileBody env src docs rel w with ⟨r, w₁⟩
  rw [hb] at h1
  cases r with
  | ok a => exact h1
  | error e => simp [printLine]; exact h1

theorem processPhpFile_result_ok (env : Env) (src docs rel : List Char) (w : World) :
    ∃ w₂, processPhpFile env src docs rel w = (.ok (), w₂) := by
  rw [processPhpFile, tryCatchFs]
  rcases hb : processPhpFileBody env src docs rel w with ⟨r, w₁⟩
  cases r with
  | ok a => cases a; exact ⟨w₁, rfl⟩
  | error e => exact ⟨(printLine (errorLine src rel e) w₁).2, rfl⟩

theorem processAllFiles_result_ok (env : Env) (src docs : List Char) :
    ∀ (l : List (List Char)) (w : World),
      ∃ w₂, processAllFiles env src docs l w = (.ok (), w₂) := by
  intro l
  induction l with
  | nil => intro w; exact ⟨w, rfl⟩
  | cons rel rest ih =>
    intro w
    by_cases hskip : shouldSkipFile (fullPath src rel) = true
    · obtain ⟨w₂, hw⟩ := ih w
      exact ⟨w₂, by rw [processAllFiles, if_pos hskip, hw]⟩
    · obtain ⟨wA, hA⟩ :=
        processPhpFile_result_ok env src docs rel (printLine (str "Processing " ++ rel) w).2
      obtain ⟨w₂, hw⟩ := ih wA
      refine ⟨w₂, ?_⟩
      rw [processAllFiles, if_neg hskip]
      show (fsBind (printLine (str "Processing " ++ rel)) _ w) = _
      simp only [fsBind, printLine] at hA ⊢
      rw [hA]
      exact hw

theorem generateDocumentation_result_ok (env : Env) (src docs : List Char) (w : World) :
    ∃ w₂, generateDocumentation env src docs w = (.ok (), w₂) := by
  obtain ⟨w₂, hw⟩ := processAllFiles_result_ok env src docs env.phpFiles
    (printLine (str "Generating API documentation from " ++ src ++ str " to " ++ docs) w).2
  refine ⟨w₂, ?_⟩
  rw [generateDocumentation]
  simp only [fsBind, printLine, mkdirOp, fsPure] at hw ⊢
  rw [hw]

/-- C6: any exception raised while parsing or rendering a single file —
whatever fallible operation raises it, with no distinction between
malformed-source and I/O errors — is caught at the per-file boundary of
`_process_php_file`, which returns normally having logged an error line
built from the file path and the exception message; every write performed
before the failure persists (no rollback), and the driver loop always
proceeds to the remaining files. -/
theorem claim_C6_per_file_catch (env : Env) (src docs rel : List Char) (w w' : World)
    (e : List Char)
    (h : processPhpFileBody env src docs rel w = (.error e, w')) :
    processPhpFile env src docs rel w
      = (.ok (), { w' with log := w'.log ++ [errorLine src rel e] })
    ∧ (∃ t, w'.writes = w.writes ++ t)
    ∧ (∀ rest w₀, ∃ w₁, processAllFiles env src docs (rel :: rest) w₀
        = processAllFiles env src docs rest w₁) := by
  refine ⟨?_, ?_, ?_⟩
  · rw [processPhpFile, tryCatchFs, h]
    rfl
  · obtain ⟨t, ht, _⟩ := processPhpFileBody_writesOnly env src docs rel w
    rw [h] at ht
    exact ⟨t, ht⟩
  · intro rest w₀
    by_cases hskip : shouldSkipFile (fullPath src rel) = true
    · exact ⟨w₀, by rw [processAllFiles, if_pos hskip]⟩
    · obtain ⟨wA, hA⟩ :=
        processPhpFile_result_ok env src docs rel (printLine (str "Processing " ++ rel) w₀).2
      refine ⟨wA, ?_⟩
      rw [processAllFiles, if_neg hskip]
      show (fsBind (printLine (str "Processing " ++ rel)) _ w₀) = _
      simp only [fsBind, printLine] at hA ⊢
      rw [hA]

/-- C6 witness: an environment whose very first file operation raises
`boom` makes the per-file body fail; the catch logs the error line and the
run state keeps the attempted read with no writes. -/
theorem claim_C6_per_file_catch_witness :
    processPhpFile envFaulty (str "src") (str "docs") (str "App/Pair.php") emptyWorld
      = (.ok (), { log := [errorLine (str "src") (str "App/Pair.php") (str "boom")]
                   reads := [fullPath (str "src") (str "App/Pair.php")]
                   writes := []
                   opCount := 1 }) :=
  (claim_C6_per_file_catch envFaulty (str "src") (str "docs") (str "App/Pair.php")
    emptyWorld
    { log := [], reads := [fullPath (str "src") (str "App/Pair.php")], writes := [], opCount := 1 }
    (str "boom") rfl).1

/-- C7: invoked with a number of positional arguments other than exactly
two (so `sys.argv`, program name included, has length other than three),
`main` prints the usage message and exits with code 1 having performed no
reads or writes; with exactly two positional arguments the run completes
and exits with code 0, whatever the fault oracle does to individual files
(per-file failures are caught and logged, not fatal). -/
theorem claim_C7_cli (env : Env) (argv : List (List Char)) :
    (argv.length ≠ 3 → mainRun env argv = (1, { emptyWorld with log := [usageLine] }))
    ∧ (argv.length = 3 → (mainRun env argv).1 = 0) := by
  constructor
  · intro hne
    rcases argv with _ | ⟨a, _ | ⟨b, _ | ⟨c, _ | ⟨d, t⟩⟩⟩⟩
    · rfl
    · rfl
    · rfl
    · exact absurd rfl hne
    · rfl
  · intro h3
    rcases argv with _ | ⟨a, _ | ⟨b, _ | ⟨c, _ | ⟨d, t⟩⟩⟩⟩
    · simp at h3
    · simp at h3
    · simp at h3
    · obtain ⟨w₂, hw⟩ := generateDocumentation_result_ok env b c emptyWorld
      show (mainRun env [a, b, c]).1 = 0
      simp only [mainRun, fsBind, hw, printLine]
    · simp at h3

/-- C7 witness: one concrete invocation of each kind. -/
theorem claim_C7_cli_witness :
    mainRun envPair [str "gen_api.py"] = (1, { emptyWorld with log := [usageLine] })
    ∧ (mainRun envPair [str "gen_api.py", str "src", str "docs"]).1 = 0 :=
  ⟨(claim_C7_cli envPair [str "gen_api.py"]).1 (by decide),
   (claim_C7_cli envPair [str "gen_api.py", str "src", str "docs"]).2 rfl⟩

/-- C8: a file whose full path contains one of the configured exclusion
substrings is never read by the driver — its path never enters the read
log — and every write the driver performs is the mirrored output path of
some file that was not excluded, so no output derived from an excluded
file is ever written. -/
theorem claim_C8_exclusions (env : Env) (src docs : List Char) (l : List (List Char))
    (w : World) (f : List Char)
    (hskipf : shouldSkipFile (fullPath src f) = true)
    (hr : fullPath src f ∉ w.reads) :
    fullPath src f ∉ ((processAllFiles env src docs l w).2).reads
    ∧ ∀ pc ∈ ((processAllFiles env src docs l w).2).writes,
        pc ∈ w.writes ∨ ∃ g, g ∈ l ∧ shouldSkipFile (fullPath src g) = false
          ∧ pc.1 = docPathFor docs g := by
  induction l generalizing w with
  | nil =>
    rw [processAllFiles]
    exact ⟨hr, fun pc hpc => Or.inl hpc⟩
  | cons rel rest ih =>
    by_cases hskip : shouldSkipFile (fullPath src rel) = true
    · rw [processAllFiles, if_pos hskip]
      obtain ⟨h1, h2⟩ := ih w hr
      refine ⟨h1, fun pc hpc => ?_⟩
      rcases h2 pc hpc with hin | ⟨g, hg, hgs, hgp⟩
      · exact Or.inl hin
      · exact Or.inr ⟨g, List.mem_cons_of_mem _ hg, hgs, hgp⟩
    · obtain ⟨wA, hA⟩ :=
        processPhpFile_result_ok env src docs rel (printLine (str "Processing " ++ rel) w).2
      have hreadsA : wA.reads = w.reads ++ [fullPath src rel] := by
        have hx := processPhpFile_reads env src docs rel (printLine (str "Processing " ++ rel) w).2
        rw [hA] at hx
        exact hx
      have hwritesA : ∃ t, wA.writes = w.writes ++ t
          ∧ ∀ pc ∈ t, pc.1 = docPathFor docs rel := by
        obtain ⟨t, ht, htq⟩ :=
          processPhpFile_writesOnly env src docs rel (printLine (str "Processing " ++ rel) w).2
        rw [hA] at ht
        exact ⟨t, ht, htq⟩
      have hfr : fullPath src f ∉ wA.reads := by
        rw [hreadsA]
        intro hmem
        rcases List.mem_append.mp hmem with hx | hx
        · exact hr hx
        · have hx' : fullPath src f = fullPath src rel := by simpa using hx
          rw [hx'] at hskipf
          exact hskip hskipf
      have hgoal : processAllFiles env src docs (rel :: rest) w
          = processAllFiles env src docs rest wA := by
        rw [processAllFiles, if_neg hskip]
        show (fsBind (printLine (str "Processing " ++ rel)) _ w) = _
        simp only [fsBind, printLine] at hA ⊢
        rw [hA]
      rw [hgoal]
      obtain ⟨h1, h2⟩ := ih wA hfr
      refine ⟨h1, fun pc hpc => ?_⟩
      rcases h2 pc hpc with hin | ⟨g, hg, hgs, hgp⟩
      · obtain ⟨t, ht, htq⟩ := hwritesA
        rw [ht] at hin
        rcases List.mem_append.mp hin with hx | hx
        · exact Or.inl hx
        · exact Or.inr ⟨rel, List.mem_cons_self _ _,
            Bool.not_eq_true _ ▸ Bool.of_not_eq_true hskip, htq pc hx⟩
      · exact Or.inr ⟨g, List.mem_cons_of_mem _ hg, hgs, hgp⟩

/-- C8 witness: with an excluded test file and a retained file in the
walk, the excluded file's path is never read and all writes mirror the
retained file. -/
theorem claim_C8_exclusions_witness :
    fullPath (str "src") (str "tests/FooTest.php")
        ∉ ((processAllFiles envSkip (str "src") (str "docs") envSkip.phpFiles emptyWorld).2).reads
    ∧ ∀ pc ∈ ((processAllFiles envSkip (str "src") (str "docs") envSkip.phpFiles emptyWorld).2).writes,
        pc ∈ emptyWorld.writes ∨ ∃ g, g ∈ envSkip.phpFiles
          ∧ shouldSkipFile (fullPath (str "src") g) = false
          ∧ pc.1 = docPathFor (str "docs") g :=
  claim_C8_exclusions envSkip (str "src") (str "docs") envSkip.phpFiles emptyWorld
    (str "tests/FooTest.php") (by decide) (by decide)

/-- C3: for a declaration or member matched at position `p`, the attributed
doc-comment is the block opening at the most recent occurrence of the
opener before `p` (an occurrence lying wholly before `p`, which is what
`rfind('/**', 0, p)` searches for), taken verbatim with delimiters — from
that opener through the first subsequent closer — regardless of what lies
between that occurrence and `p`.  The maximality hypothesis is the only
assumption: nothing about the text separating the block from `p` is
needed, so a nearer unrelated block wins and a block belonging to a prior
entity is attributed when no nearer opener exists. -/
theorem claim_C3_nearest_opener (content : List Char) (p s : Nat)
    (hocc : occursAt content (str "/**") s = true)
    (hfit : s + 3 ≤ p)
    (hmax : ∀ j, j < p → occursAt content (str "/**") j = true → j + 3 ≤ p → j ≤ s) :
    extractPhpdocBefore content p =
      match firstOccFrom content (str "*/") s with
      | none => []
      | some e => pySlice content s (e + 2) :=
  extractPhpdocBefore_of_some (lastOcc_eq_of_maximal hocc hfit hmax)

/-- C3 witness: with two doc blocks before the declaration at position 18,
the nearer block `/** B */` (opening at 9) is the one attributed. -/
theorem claim_C3_nearest_opener_witness :
    extractPhpdocBefore (str "/** A */ /** B */\nclass C") 18 = str "/** B */" := by
  have h := claim_C3_nearest_opener (str "/** A */ /** B */\nclass C") 18 9
    (by decide) (by decide) (by decide)
  rw [h]
  decide

/-- C10: the backward doc-comment lookup returns the empty string exactly
when no opener occurrence lies wholly before `p`, or when no closer occurs
at or after the last such opener; otherwise it returns the (nonempty)
substring from that last opener through the first subsequent closer
inclusive.  The closer is searched forward without bound, so the returned
block can extend past `p` itself: on `"/**a*/"` at position 4 the whole
six-character block is returned. -/
theorem claim_C10_lookup_characterization :
    (∀ content p, extractPhpdocBefore content p = []
      ↔ ((∀ j, j < p → j + 3 ≤ p → occursAt content (str "/**") j = false)
        ∨ (∃ s, occursAt content (str "/**") s = true ∧ s + 3 ≤ p
            ∧ (∀ j, j < p → occursAt content (str "/**") j = true → j + 3 ≤ p → j ≤ s)
            ∧ (∀ e, s ≤ e → occursAt content (str "*/") e = false))))
    ∧ (∀ content p s e,
        occursAt content (str "/**") s = true → s + 3 ≤ p
        → (∀ j, j < p → occursAt content (str "/**") j = true → j + 3 ≤ p → j ≤ s)
        → firstOccFrom content (str "*/") s = some e
        → extractPhpdocBefore content p = pySlice content s (e + 2)
          ∧ 2 ≤ (pySlice content s (e + 2)).length)
    ∧ (extractPhpdocBefore (str "/**a*/") 4 = str "/**a*/"
        ∧ 4 < (str "/**a*/").length) := by
  have hlen : (str "/**").length = 3 := rfl
  have hlenC : (str "*/").length = 2 := rfl
  refine ⟨?_, ?_, by decide⟩
  · intro content p
    constructor
    · intro h
      cases hlast : lastOcc content (str "/**") p with
      | none =>
        left
        intro j _ hj
        exact lastOcc_none (by decide) hlast j (by omega)
      | some s =>
        have h1 := lastOcc_some hlast
        cases hfirst : firstOccFrom content (str "*/") s with
        | none =>
          right
          refine ⟨s, h1.1, by omega, ?_, ?_⟩
          · intro j _ hj hjp
            exact lastOcc_maximal hlast j hj (by omega)
          · intro e hse
            exact firstOccFrom_none (by decide) hfirst e hse
        | some e =>
          exfalso
          have h' : pySlice content s (e + 2) = [] := by
            rw [extractPhpdocBefore_of_some hlast, hfirst] at h
            exact h
          have h2 := firstOccFrom_some hfirst
          have h3 := @occursAt_le_length content (str "*/") e (by decide) h2.1
          have h4 := congrArg List.length h'
          rw [pySlice_length] at h4
          simp at h4
          omega
    · intro h
      rcases h with h | ⟨s, hocc, hfit, hsmax, hnoclose⟩
      · cases hlast : lastOcc content (str "/**") p with
        | none => exact extractPhpdocBefore_of_none hlast
        | some i =>
          exfalso
          have h1 := lastOcc_some hlast
          have := h i (by omega) (by omega)
          rw [this] at h1
          cases h1.1
      · have hsome := lastOcc_eq_of_maximal hocc hfit hsmax
        cases hfirst : firstOccFrom content (str "*/") s with
        | none =>
          rw [extractPhpdocBefore_of_some hsome, hfirst]
        | some e =>
          exfalso
          have h2 := firstOccFrom_some hfirst
          have := hnoclose e h2.2
          rw [this] at h2
          cases h2.1
  · intro content p s e hocc hfit hmax hfirst
    have hsome := lastOcc_eq_of_maximal hocc hfit hmax
    constructor
    · rw [extractPhpdocBefore_of_some hsome, hfirst]
    · have h2 := firstOccFrom_some hfirst
      have h3 := @occursAt_le_length content (str "*/") e (by decide) h2.1
      rw [pySlice_length]
      omega

/-- C10 witness: on a text with no opener the lookup is empty, and on
`"/**a*/ class"` at position 8 the block from the last opener through the
first closer is returned. -/
theorem claim_C10_lookup_characterization_witness :
    extractPhpdocBefore (str "abc") 3 = []
      ∧ extractPhpdocBefore (str "/**a*/ class") 8 = pySlice (str "/**a*/ class") 0 (4 + 2) := by
  constructor
  · exact (claim_C10_lookup_characterization.1 (str "abc") 3).mpr (Or.inl (by decide))
  · exact (claim_C10_lookup_characterization.2.1 (str "/**a*/ class") 8 0 4
      (by decide) (by decide) (by decide) (by decide)).1

/-- Stripping is the identity on a string whose first and last characters
are not whitespace. -/
theorem pyStrip_eq_self {s : List Char} {c d : Char} {t u : List Char}
    (h1 : s = c :: t) (h2 : s = u ++ [d])
    (hc : pyIsSpace c = false) (hd : pyIsSpace d = false) :
    pyStrip s = s := by
  unfold pyStrip
  have e1 : s.dropWhile pyIsSpace = s := by
    rw [h1, List.dropWhile_cons, hc]
    simp
  rw [e1]
  have e2 : s.reverse.dropWhile pyIsSpace = s.reverse := by
    rw [h2, List.reverse_append]
    simp only [List.reverse_singleton, List.singleton_append, List.dropWhile_cons, hd]
    simp
  rw [e2, List.reverse_reverse]

/-- C4: on every doc-comment string (a block starting with the opener and
ending with the closer, the two delimiters disjoint), normalization strips
the opening and closing delimiters, splits the remainder into lines,
trims each line, discards the lines that are empty after trimming or that
begin with an asterisk (markdown bullets included), and rejoins the
surviving lines with newlines with no further reflow: `_format_phpdoc`
computes exactly the pipeline stated by the spec (`specNormalizeDoc`). -/
theorem claim_C4_normalization (s : List Char)
    (hpre : startsWithL (str "/**") s = true)
    (hsuf : endsWithL (str "*/") s = true)
    (hlen : 5 ≤ s.length) :
    formatPhpdoc s = specNormalizeDoc s := by
  have hne : ¬(s = []) := by
    intro h
    rw [h] at hlen
    simp at hlen
  have h1 : s.take 3 = ['/', '*', '*'] := by
    have := hpre
    simp only [startsWithL, decide_eq_true_eq] at this
    exact this
  have h2 : s.drop (s.length - 2) = ['*', '/'] := by
    have := hsuf
    simp only [endsWithL, decide_eq_true_eq] at this
    exact this
  have hsplit1 : s = '/' :: '*' :: '*' :: s.drop 3 := by
    conv_lhs => rw [← List.take_append_drop 3 s, h1]
    rfl
  have hsplit2 : s = s.take (s.length - 2) ++ ['*', '/'] := by
    conv_lhs => rw [← List.take_append_drop (s.length - 2) s, h2]
  have htklen : (s.take (s.length - 2)).length = s.length - 2 := by
    rw [List.length_take]
    omega
  have hstrip : pyStrip s = s :=
    pyStrip_eq_self hsplit1
      (by rw [hsplit2]; exact (List.append_cons _ _ _))
      (by decide) (by decide)
  have hdrop3 : s.drop 3 = (s.take (s.length - 2)).drop 3 ++ ['*', '/'] := by
    conv_lhs => rw [hsplit2]
    rw [List.drop_append_of_le_length (by omega)]
  have hvlen : ((s.take (s.length - 2)).drop 3).length = s.length - 5 := by
    rw [List.length_drop, htklen]
    omega
  have hend : endsWithL (str "*/") (s.drop 3) = true := by
    simp only [endsWithL, decide_eq_true_eq]
    rw [hdrop3]
    have : ((s.take (s.length - 2)).drop 3 ++ ['*', '/']).length - (str "*/").length
        = ((s.take (s.length - 2)).drop 3).length := by
      have l2 : (str "*/").length = 2 := rfl
      rw [List.length_append, l2]
      simp
    rw [this, List.drop_left]
    rfl
  have htakeL : (s.drop 3).take ((s.drop 3).length - 2)
      = (s.take (s.length - 2)).drop 3 := by
    rw [hdrop3]
    have : ((s.take (s.length - 2)).drop 3 ++ ['*', '/']).length - 2
        = ((s.take (s.length - 2)).drop 3).length := by
      simp [List.length_append]
    rw [this, List.take_left]
  have htakeR : (s.drop 3).take (s.length - 5)
      = (s.take (s.length - 2)).drop 3 := by
    rw [hdrop3, ← hvlen, List.take_left]
  unfold formatPhpdoc specNormalizeDoc
  rw [if_neg hne]
  simp only [hstrip, hpre, if_true, hend, htakeL, htakeR]

/-- C4 witness: a concrete doc-comment block satisfying the hypotheses. -/
theorem claim_C4_normalization_witness :
    formatPhpdoc (str "/**\n * Doc line\n */") = specNormalizeDoc (str "/**\n * Doc line\n */") :=
  claim_C4_normalization (str "/**\n * Doc line\n */") (by decide) (by decide) (by decide)

/-- C9: for every source text, the extraction result declares `functions`
and `constants` entries that are always empty lists: `_parse_content`
initializes them and no operation ever appends to them. -/
theorem claim_C9_empty_entries (content : List Char) :
    (parseContent content).functions = [] ∧ (parseContent content).constants = [] :=
  ⟨rfl, rfl⟩

/-- C1: the claim fails on the code.  The extractor re-runs the member
patterns over `content[match.start():match.end()]` — the span of the
declaration-header match alone, which ends just past the opening brace —
rather than over the span from the opening brace to the next occurrence of
the same top-level keyword or the end of the file.  On a class with one
public method the code collects no methods at all, while the span rule the
claim states collects the method `bar`. -/
theorem claim_C1_header_span_bug :
    (parseContent phpClassSample).classes.map (fun c => c.methods) = [[]]
      ∧ (claimedClassMethods phpClassSample).map (fun l => l.map (fun m => m.name))
          = [[str "bar"]] := by
  decide

/-- C2: the claim fails on the code.  Because the enum-case pattern is
re-run only over the enum-header match span (`enum Status : string \x7b`),
extraction returns no cases for a backed enum with two cases, and the
rendered document therefore contains no `## Cases` heading; the span rule
stated by the spec would have collected `Active` and `Inactive` in
declaration order with their assigned values discarded. -/
theorem claim_C2_enum_cases_bug :
    (parseContent phpEnumSample).enums.map (fun e => e.cases) = [[]]
      ∧ (parseContent phpEnumSample).enums.map
          (fun e => containsSub (renderEnumDoc e) (str "## Cases")) = [false]
      ∧ (claimedEnumCases phpEnumSample).map (fun l => l.map (fun c => c.name))
          = [[str "Active", str "Inactive"]] := by
  decide

end GenApi
